import Mathlib

/-!
Verification of the sequence analyzer (src/sequence/sequence_analyzer.cpp):
the feature and label id mappings, their binary persistence, the
mutating/const feature-resolution duality, per-position analysis, and the
default part-of-speech observation pipeline.

Machine integers are modelled as Nat (every value written into a stream is a
byte, already reduced modulo 256 by the encoders); streams are byte lists
with an explicit fail flag mirroring C++ stream state: once a read fails the
flag is set, every later read is a no-op, and the target variable of a
failed read keeps its previous value, exactly as with std::istream.
-/

namespace MetaSeq

/-- C++ input-stream state: the remaining bytes plus the fail/eof flag. -/
structure IStream where
  data : List Nat
  fail : Bool

/-- Little-endian decoding of a byte list (first byte least significant). -/
def decodeU64 (bs : List Nat) : Nat :=
  bs.foldr (fun b acc => b + 256 * acc) 0

/-- Little-endian 8-byte encoding of an unsigned 64-bit integer. -/
def encodeU64 (n : Nat) : List Nat :=
  (List.range 8).map (fun i => n / 256 ^ i % 256)

/-- Modelled from the spec: io::read_binary for an 8-byte unsigned integer
(the generic binary decode primitives live outside src/).  On failure the
fail flag is set and the caller keeps the previous value `old` of the
target variable. -/
def readU64 (s : IStream) (old : Nat) : Nat × IStream :=
  if s.fail then (old, s)
  else if 8 ≤ s.data.length then
    (decodeU64 (s.data.take 8), ⟨s.data.drop 8, false⟩)
  else (old, ⟨[], true⟩)

/-- Modelled from the spec: io::read_binary for a length-prefixed string
key.  A failed read sets the fail flag and leaves the default-constructed
string `old` in place. -/
def readString (s : IStream) (old : String) : String × IStream :=
  if s.fail then (old, s)
  else if 8 ≤ s.data.length then
    let len := decodeU64 (s.data.take 8)
    let rest := s.data.drop 8
    if len ≤ rest.length then
      (⟨(rest.take len).map Char.ofNat⟩, ⟨rest.drop len, false⟩)
    else (old, ⟨[], true⟩)
  else (old, ⟨[], true⟩)

/-- Modelled from the spec: io::write_binary for a length-prefixed string. -/
def encodeString (str : String) : List Nat :=
  encodeU64 str.length ++ str.data.map Char.toNat

/-- The feature_id_mapping_ member (std::unordered_map mapping feature-name
strings to feature ids), modelled as an association list; the container's
implementation-defined iteration order is the list order. -/
abbrev FeatureMap := List (String × Nat)

/-- Lookup in the feature mapping (unordered_map::find). -/
def findFeature (m : FeatureMap) (k : String) : Option Nat :=
  (m.find? (fun p => p.1 == k)).map (fun p => p.2)

/-- The map index-assignment feature_id_mapping_[key] = value: overwrite
when the key is present, append a new association otherwise. -/
def fmStore (m : FeatureMap) (k : String) (v : Nat) : FeatureMap :=
  if (m.find? (fun p => p.1 == k)).isSome then
    m.map (fun p => if p.1 == k then (k, v) else p)
  else m ++ [(k, v)]

/-- sequence_analyzer::feature (non-const overload, lines 139-147): return
the existing id, or store the name under the current size and return it. -/
def featureMut (m : FeatureMap) (name : String) : Nat × FeatureMap :=
  match findFeature m name with
  | some v => (v, m)
  | none => (m.length, fmStore m name m.length)

/-- sequence_analyzer::feature (const overload, lines 149-155): return the
existing id, or the current size without mutating anything. -/
def featureConst (m : FeatureMap) (name : String) : Nat :=
  match findFeature m name with
  | some v => v
  | none => m.length

/-- The stream body written by sequence_analyzer::save (lines 79-99) for the
feature mapping: the size as an 8-byte count header, then one record per
(key, id) pair in the container's iteration order. -/
def saveFeatureBytes (m : FeatureMap) : List Nat :=
  encodeU64 m.length ++ m.flatMap (fun p => encodeString p.1 ++ encodeU64 p.2)

/-- The read loop of sequence_analyzer::load_feature_id_mapping (lines
60-68).  The C++ loop runs while the stream has not failed, and its body
reads a key and a value and stores them unconditionally; after the last
full record the stream is still good, so one more iteration runs, both of
its reads fail, and the default-constructed key "" together with the
indeterminate value of the uninitialized local (the parameter `junk`) is
still stored.  The fuel only bounds the iteration count: every iteration
either consumes at least eight stream elements or sets the fail flag, which
makes the following iteration return, so data.length + 2 iterations always
suffice and the fuel never runs out. -/
def loadLoop : Nat → FeatureMap → IStream → Nat → FeatureMap
  | 0, m, _, _ => m
  | fuel + 1, m, s, junk =>
    if s.fail then m
    else
      let r1 := readString s ""
      let r2 := readU64 r1.2 junk
      loadLoop fuel (fmStore m r1.1 r2.1) r2.2 junk

/-- sequence_analyzer::load_feature_id_mapping(std::istream&) (lines 51-69):
throw "missing feature id mapping" if the stream is bad, read the 8-byte
count header (its value is used only for progress reporting and then
discarded), then run the read loop until stream exhaustion. -/
def loadFeatureStream (s : IStream) (junk : Nat) : Except String FeatureMap :=
  if s.fail then .error "missing feature id mapping"
  else
    let r := readU64 s junk
    .ok (loadLoop (r.2.data.length + 2) [] r.2 junk)

/-- The label_id_mapping_ member (util::invertible_map from tag strings to
label ids, outside src/), modelled from the spec as an association list in
insertion order: a bidirectional mapping between tags and dense ids. -/
abbrev LabelMap := List (String × Nat)

/-- invertible_map::contains_key. -/
def lmContainsKey (m : LabelMap) (t : String) : Bool :=
  m.any (fun p => p.1 == t)

/-- invertible_map::get_value (tag to label id); none models the not-found
error. -/
def lmGetValue (m : LabelMap) (t : String) : Option Nat :=
  (m.find? (fun p => p.1 == t)).map (fun p => p.2)

/-- invertible_map::get_key (label id to tag); none models the not-found
error. -/
def lmGetKey (m : LabelMap) (v : Nat) : Option String :=
  (m.find? (fun p => p.2 == v)).map (fun p => p.1)

/-- Modelled from the spec: invertible_map::insert stores a new association
(callers are required to check contains_key first, so neither the key nor
the value is already present). -/
def lmInsert (m : LabelMap) (t : String) (v : Nat) : LabelMap :=
  m ++ [(t, v)]

/-- The label step of training-mode analyze (lines 112-117), applied to the
string returned by the position's tag(): insert (tag, current size) when the
tag is unknown, then look the tag up to produce the position's label id. -/
def assignLabelTrain (m : LabelMap) (tg : String) : LabelMap × Option Nat :=
  let m2 := if lmContainsKey m tg then m else lmInsert m tg m.length
  (m2, lmGetValue m2 tg)

/-- Invariant of the label mapping as maintained by the analyzer: distinct
tags, and ids dense from 0 in insertion order. -/
def WellFormed (m : LabelMap) : Prop :=
  (m.map Prod.fst).Nodup ∧ m.map Prod.snd = List.range m.length

/-- One position of a sequence (class sequence::observation, declared
outside src/).  Modelled from the spec: a position holds a symbol (the token
string), an optional ground-truth tag, a label id, and a set of
(feature id, weight) pairs.  Weights (C++ double) are modelled as Nat; the
default pipeline only ever emits weight 1. -/
structure Position where
  symbol : String
  tag : Option String
  label : Option Nat
  feats : List (Nat × Nat)

instance : Inhabited Position := ⟨⟨"", none, none, []⟩⟩

/-- A sequence is an ordered list of positions. -/
abbrev Sequence := List Position

/-- An observation function, modelled by the list of (feature name, weight)
pairs it passes to collector::add for the given sequence and position. -/
abbrev ObsFn := Sequence → Nat → List (String × Nat)

/-- The sequence_analyzer state: both mappings and the observation-function
pipeline. -/
structure Analyzer where
  featureMap : FeatureMap
  labelMap : LabelMap
  obsFns : List ObsFn

/-- sequence_analyzer::num_features (lines 157-160). -/
def numFeatures (a : Analyzer) : Nat := a.featureMap.length

/-- sequence_analyzer::num_labels (lines 177-180). -/
def numLabels (a : Analyzer) : Nat := a.labelMap.length

/-- A call of the const overload sequence_analyzer::feature on an analyzer:
the method is const, so the analyzer comes back unchanged next to the
returned id. -/
def featureConstCall (a : Analyzer) (name : String) : Nat × Analyzer :=
  (featureConst a.featureMap name, a)

/-- seq[t].symbol() with the C++ precondition t < seq.size(). -/
def symbolAt (seq : Sequence) (t : Nat) : String :=
  (seq.getD t default).symbol

/-- sequence_analyzer::analyze(sequence&, uint64_t) const (lines 126-137):
run every observation function through a const_collector (modelled from the
spec: each emitted feature name is resolved read-only and the (id, weight)
pair appended to the position's feature set), then label the position with
the label-mapping size if the position is untagged or its tag is unknown,
and with the tag's existing id otherwise.  The method is const: neither
mapping can grow, so the analyzer is not part of the result. -/
def analyzeConstAt (a : Analyzer) (seq : Sequence) (t : Nat) : Sequence :=
  let emitted : List (String × Nat) := a.obsFns.foldl (fun acc fn => acc ++ fn seq t) []
  let p := seq.getD t default
  let p2 := { p with
    feats := p.feats ++ emitted.map (fun (q : String × Nat) => (featureConst a.featureMap q.1, q.2)) }
  let p3 :=
    match p2.tag with
    | none => { p2 with label := some a.labelMap.length }
    | some tg =>
      if lmContainsKey a.labelMap tg then { p2 with label := lmGetValue a.labelMap tg }
      else { p2 with label := some a.labelMap.length }
  seq.set t p3

/-- The filesystem, as seen through the filesystem::file_exists collaborator
and stream opening: a partial map from paths to byte contents. -/
abbrev FileSys := String → Option (List Nat)

/-- filesystem::file_exists. -/
def fileExists (fs : FileSys) (p : String) : Bool := (fs p).isSome

/-- Opening std::ifstream (or io::gzifstream): a missing file yields a
stream whose fail flag is already set; an existing file yields its
contents (for the .gz variant, the bytes after decompression, since the gz
stream decompresses transparently). -/
def openIfstream (fs : FileSys) (p : String) : IStream :=
  match fs p with
  | some bs => ⟨bs, false⟩
  | none => ⟨[], true⟩

/-- sequence_analyzer::load_feature_id_mapping(prefix) (lines 37-49, zlib
build): probe for feature.mapping.gz first, fall back to feature.mapping. -/
def loadFeatureFromDir (fs : FileSys) (pre : String) (junk : Nat) :
    Except String FeatureMap :=
  if fileExists fs (pre ++ "/feature.mapping.gz") then
    loadFeatureStream (openIfstream fs (pre ++ "/feature.mapping.gz")) junk
  else
    loadFeatureStream (openIfstream fs (pre ++ "/feature.mapping")) junk

/-- Modelled from the spec: the record loop of the generic
bidirectional-mapping serializer (util/mapping.h, outside src/): the count
header is authoritative, then one (key, value) record per entry. -/
def readRecords : Nat → IStream → LabelMap → LabelMap
  | 0, _, m => m
  | n + 1, s, m =>
    let r1 := readString s ""
    let r2 := readU64 r1.2 0
    readRecords n r2.2 (m ++ [(r1.1, r2.1)])

/-- Modelled from the spec: map::load_mapping for the label mapping. -/
def loadMappingBytes (bs : List Nat) : LabelMap :=
  let r := readU64 ⟨bs, false⟩ 0
  readRecords r.1 r.2 []

/-- Modelled from the spec: map::save_mapping, the count then the records. -/
def saveMappingBytes (m : LabelMap) : List Nat :=
  encodeU64 m.length ++ m.flatMap (fun p => encodeString p.1 ++ encodeU64 p.2)

/-- sequence_analyzer::load_label_id_mapping (lines 71-77): throw "missing
label mapping" unless label.mapping exists, then read it. -/
def loadLabelFromDir (fs : FileSys) (pre : String) : Except String LabelMap :=
  if fileExists fs (pre ++ "/label.mapping") then
    .ok (loadMappingBytes ((fs (pre ++ "/label.mapping")).getD []))
  else .error "missing label mapping"

/-- sequence_analyzer::load (lines 29-35): clear both mappings, load the
feature mapping, then the label mapping; the first failure aborts, leaving
the analyzer with whatever had been stored up to that point (the second
component is the raised error, if any). -/
def loadAnalyzer (a : Analyzer) (fs : FileSys) (pre : String) (junk : Nat) :
    Analyzer × Option String :=
  let a1 : Analyzer := { a with featureMap := [], labelMap := [] }
  match loadFeatureFromDir fs pre junk with
  | .error e => (a1, some e)
  | .ok fm =>
    let a2 : Analyzer := { a1 with featureMap := fm }
    match loadLabelFromDir fs pre with
    | .error e => (a2, some e)
    | .ok lm => ({ a2 with labelMap := lm }, none)

/-- sequence_analyzer::save (lines 79-99, zlib build): write the feature
mapping stream to feature.mapping.gz and the label mapping to
label.mapping. -/
def saveAnalyzer (a : Analyzer) (fs : FileSys) (pre : String) : FileSys :=
  fun p =>
    if p = pre ++ "/feature.mapping.gz" then some (saveFeatureBytes a.featureMap)
    else if p = pre ++ "/label.mapping" then some (saveMappingBytes a.labelMap)
    else fs p

/-- The case-folding collaborator utf::foldcase (outside src/).  Modelled
from the spec: converts a token to its canonical lowercase form, here
per-character ASCII lowercasing (which sends the spec's example "Run-23"
to "run-23"). -/
def foldcase (s : String) : String :=
  ⟨s.data.map Char.toLower⟩

/-- The suffix helper of the default pipeline (lines 184-189): the last
`length` characters, or the whole string when `length` exceeds its size. -/
def suffixStr (s : String) (n : Nat) : String :=
  if s.length < n then s
  else ⟨s.data.drop (s.data.length - n)⟩

/-- The prefix helper of the default pipeline (lines 191-196): the first
`length` characters, or the whole string when `length` exceeds its size. -/
def prefixStr (s : String) (n : Nat) : String :=
  if s.length < n then s
  else ⟨s.data.take n⟩

/-- The word_feats lambda of default_pos_analyzer (lines 203-246): affix,
identity and binary indicator features of the current token. -/
def wordFeats (word : String) (t : Nat) : List (String × Nat) :=
  let norm := foldcase word
  ((List.range 4).flatMap (fun j =>
      let len := toString (j + 1)
      [("w[t]_suffix_" ++ len ++ "=" ++ suffixStr norm (j + 1), 1),
       ("w[t]_prefix_" ++ len ++ "=" ++ prefixStr norm (j + 1), 1)]))
    ++ [("w[t]=" ++ norm, 1)]
    ++ (if word.data.any Char.isDigit then [("w[t]_has_digit=1", 1)] else [])
    ++ (if word.data.any (fun c => c == '-') then [("w[t]_has_hyphen=1", 1)] else [])
    ++ (if word.data.any Char.isUpper then
          ("w[t]_has_upper=1", 1)
            :: (if t ≠ 0 then [("w[t]_has_upper_and_not_sentence_start=1", 1)] else [])
        else [])
    ++ (if word.data.all Char.isUpper then [("w[t]_all_upper=1", 1)] else [])

/-- The current-word observation function of default_pos_analyzer
(lines 249-254). -/
def currentWordObs : ObsFn :=
  fun seq t => wordFeats (symbolAt seq t) t

/-- The previous-word observation function of default_pos_analyzer
(lines 257-280): the case-folded tokens at t-1 and t-2, with the
start-of-sequence markers when those positions fall before the start. -/
def prevWordObs : ObsFn :=
  fun seq t =>
    if t > 0 then
      ("w[t-1]=" ++ foldcase (symbolAt seq (t - 1)), 1)
        :: (if t > 1 then [("w[t-2]=" ++ foldcase (symbolAt seq (t - 2)), 1)]
            else [("w[t-2]=<s>", 1)])
    else [("w[t-1]=<s>", 1), ("w[t-2]=<s1>", 1)]

/-- The next-word observation function of default_pos_analyzer
(lines 283-305): the case-folded tokens at t+1 and t+2, with the
end-of-sequence markers when those positions fall past the end. -/
def nextWordObs : ObsFn :=
  fun seq t =>
    if t + 1 < seq.length then
      ("w[t+1]=" ++ foldcase (symbolAt seq (t + 1)), 1)
        :: (if t + 2 < seq.length then [("w[t+2]=" ++ foldcase (symbolAt seq (t + 2)), 1)]
            else [("w[t+2]=</s>", 1)])
    else [("w[t+1]=</s>", 1), ("w[t+2]=</s1>", 1)]

/-- The bias observation function of default_pos_analyzer (lines 308-312). -/
def biasObs : ObsFn :=
  fun _ _ => [("bias", 1)]

/-- default_pos_analyzer (lines 199-315): a fresh analyzer (empty mappings)
with the four observation functions added in source order. -/
def defaultPosAnalyzer : Analyzer :=
  ⟨[], [], [currentWordObs, prevWordObs, nextWordObs, biasObs]⟩

/-- Repeated training-mode feature resolution: fold the mutating overload of
sequence_analyzer::feature over a list of feature names (the order in which
a training pass first encounters them). -/
def processFeatures (m : FeatureMap) (names : List String) : FeatureMap :=
  names.foldl (fun acc n => (featureMut acc n).2) m

/-- Claim C5: the 8-byte count header of the feature-mapping stream is
advisory only: the mapping produced by the loader is determined by the bytes
after the header, and the header's value does not affect which records are
loaded (the loop terminates on stream exhaustion, never on the count). -/
theorem advisory_count_header (c1 c2 : Nat) (rest : List Nat) (junk : Nat) :
    loadFeatureStream ⟨encodeU64 c1 ++ rest, false⟩ junk
      = loadFeatureStream ⟨encodeU64 c2 ++ rest, false⟩ junk := by
  have key : ∀ c : Nat, loadFeatureStream ⟨encodeU64 c ++ rest, false⟩ junk
      = .ok (loadLoop (rest.length + 2) [] ⟨rest, false⟩ junk) := by
    intro c
    have hlen : (encodeU64 c).length = 8 := by simp [encodeU64]
    have hdrop : (encodeU64 c ++ rest).drop 8 = rest := by
      rw [← hlen]
      exact List.drop_left _ _
    simp [loadFeatureStream, readU64, hdrop, hlen, Nat.le_add_right]
  rw [key c1, key c2]

/-- Claim C1 (evaluation of the code at the failing input): saving an
analyzer whose feature mapping holds the single name "a" (N = 1) and
loading from the same prefix yields a feature mapping of size 2, not 1:
"a" does keep id 0, but the load loop's final iteration, whose reads fail
at end-of-stream, still stores the default-constructed empty key with the
indeterminate value junk. -/
theorem feature_roundtrip_spurious_record : ∀ junk : Nat,
    (loadAnalyzer ⟨[("a", 0)], [], []⟩
        (saveAnalyzer ⟨[("a", 0)], [], []⟩ (fun _ => none) "m") "m" junk).1.featureMap
        = [("a", 0), ("", junk)]
      ∧ numFeatures (loadAnalyzer ⟨[("a", 0)], [], []⟩
          (saveAnalyzer ⟨[("a", 0)], [], []⟩ (fun _ => none) "m") "m" junk).1 = 2
      ∧ findFeature (loadAnalyzer ⟨[("a", 0)], [], []⟩
          (saveAnalyzer ⟨[("a", 0)], [], []⟩ (fun _ => none) "m") "m" junk).1.featureMap "a"
          = some 0 := by
  intro junk
  exact ⟨rfl, rfl, rfl⟩

theorem findFeature_append_of_some {m : FeatureMap} {k : String} {v : Nat} (l : FeatureMap)
    (h : findFeature m k = some v) : findFeature (m ++ l) k = some v := by
  induction m with
  | nil => simp [findFeature] at h
  | cons hd tl ih =>
    rw [List.cons_append]
    cases hb : (hd.1 == k) with
    | false =>
      simp only [findFeature, List.find?, hb] at h ⊢
      exact ih h
    | true =>
      simpa [findFeature, List.find?, hb] using h

theorem findFeature_append_of_none {m : FeatureMap} {k : String} (l : FeatureMap)
    (h : findFeature m k = none) : findFeature (m ++ l) k = findFeature l k := by
  induction m with
  | nil => simp
  | cons hd tl ih =>
    rw [List.cons_append]
    cases hb : (hd.1 == k) with
    | false =>
      simp only [findFeature, List.find?, hb] at h ⊢
      exact ih h
    | true =>
      simp [findFeature, List.find?, hb] at h

theorem fmStore_absent {m : FeatureMap} {k : String} (v : Nat)
    (h : findFeature m k = none) : fmStore m k v = m ++ [(k, v)] := by
  cases hf : m.find? (fun p => p.1 == k) with
  | none => simp [fmStore, hf]
  | some p =>
    unfold findFeature at h
    rw [hf] at h
    simp at h

theorem featureMut_preserves (m : FeatureMap) (n x : String) (v : Nat)
    (h : findFeature m x = some v) : findFeature (featureMut m n).2 x = some v := by
  cases hf : findFeature m n with
  | some w => simpa [featureMut, hf] using h
  | none =>
    simp only [featureMut, hf]
    rw [fmStore_absent _ hf]
    exact findFeature_append_of_some _ h

theorem processFeatures_preserves (names : List String) :
    ∀ (m : FeatureMap) (x : String) (v : Nat), findFeature m x = some v →
      findFeature (processFeatures m names) x = some v := by
  induction names with
  | nil => intro m x v h; simpa [processFeatures] using h
  | cons n ns ih =>
    intro m x v h
    have hstep : processFeatures m (n :: ns) = processFeatures (featureMut m n).2 ns := by
      simp [processFeatures]
    rw [hstep]
    exact ih _ x v (featureMut_preserves m n x v h)

theorem processFeatures_fresh (names : List String) :
    ∀ (m : FeatureMap), names.Nodup → (∀ x ∈ names, findFeature m x = none) →
      ∀ k, ∀ hk : k < names.length,
        findFeature (processFeatures m names) (names.get ⟨k, hk⟩) = some (m.length + k) := by
  induction names with
  | nil =>
    intro m _ _ k hk
    exact absurd hk (by simp)
  | cons n ns ih =>
    intro m hnd hfresh k hk
    have hn : findFeature m n = none := hfresh n (List.mem_cons_self n ns)
    have hstep : processFeatures m (n :: ns) = processFeatures (m ++ [(n, m.length)]) ns := by
      simp [processFeatures, featureMut, hn, fmStore_absent _ hn]
    have hm2 : findFeature (m ++ [(n, m.length)]) n = some m.length := by
      rw [findFeature_append_of_none _ hn]
      simp [findFeature, List.find?]
    rw [List.nodup_cons] at hnd
    cases k with
    | zero =>
      rw [hstep]
      simpa using processFeatures_preserves ns _ n m.length hm2
    | succ k2 =>
      rw [hstep]
      have hfresh2 : ∀ x ∈ ns, findFeature (m ++ [(n, m.length)]) x = none := by
        intro x hx
        have hxm : findFeature m x = none := hfresh x (List.mem_cons_of_mem _ hx)
        rw [findFeature_append_of_none _ hxm]
        have hne : n ≠ x := fun he => hnd.1 (he ▸ hx)
        have hb : (n == x) = false := beq_eq_false_iff_ne.mpr hne
        simp [findFeature, List.find?, hb]
      have hrec := ih (m ++ [(n, m.length)]) hnd.2 hfresh2 k2 (by simpa using hk)
      have hget : (n :: ns).get ⟨k2 + 1, hk⟩ = ns.get ⟨k2, by simpa using hk⟩ := rfl
      rw [hget]
      rw [hrec]
      congr 1
      simp [List.length_append]
      omega

theorem getD_set_self {α : Type} [Inhabited α] :
    ∀ (l : List α) (i : Nat) (x : α), i < l.length → (l.set i x).getD i default = x := by
  intro l
  induction l with
  | nil =>
    intro i x h
    simp at h
  | cons hd tl ih =>
    intro i x h
    cases i with
    | zero => rfl
    | succ n =>
      have hn : n < tl.length := by simpa using h
      simpa [List.set, List.getD] using ih n x hn

theorem lmGetValue_of_mem {m : LabelMap} {t : String} {i : Nat}
    (hk : (m.map Prod.fst).Nodup) (hm : (t, i) ∈ m) : lmGetValue m t = some i := by
  induction m with
  | nil => simp at hm
  | cons hd tl ih =>
    rw [List.map_cons, List.nodup_cons] at hk
    rcases List.mem_cons.mp hm with heq | htl
    · subst heq
      simp [lmGetValue, List.find?]
    · have hne : hd.1 ≠ t := by
        intro he
        exact hk.1 (he ▸ List.mem_map.mpr ⟨(t, i), htl, rfl⟩)
      have hb : (hd.1 == t) = false := beq_eq_false_iff_ne.mpr hne
      simp only [lmGetValue, List.find?, hb] at ih ⊢
      exact ih hk.2 htl

theorem lmGetKey_of_mem {m : LabelMap} {t : String} {i : Nat}
    (hv : (m.map Prod.snd).Nodup) (hm : (t, i) ∈ m) : lmGetKey m i = some t := by
  induction m with
  | nil => simp at hm
  | cons hd tl ih =>
    rw [List.map_cons, List.nodup_cons] at hv
    rcases List.mem_cons.mp hm with heq | htl
    · subst heq
      simp [lmGetKey, List.find?]
    · have hne : hd.2 ≠ i := by
        intro he
        exact hv.1 (he ▸ List.mem_map.mpr ⟨(t, i), htl, rfl⟩)
      have hb : (hd.2 == i) = false := beq_eq_false_iff_ne.mpr hne
      simp only [lmGetKey, List.find?, hb] at ih ⊢
      exact ih hv.2 htl

theorem lmContainsKey_eq_true_iff {m : LabelMap} {t : String} :
    lmContainsKey m t = true ↔ t ∈ m.map Prod.fst := by
  unfold lmContainsKey
  rw [List.any_eq_true]
  constructor
  · rintro ⟨p, hp, hb⟩
    exact List.mem_map.mpr ⟨p, hp, beq_iff_eq.mp hb⟩
  · rintro hmem
    obtain ⟨p, hp, he⟩ := List.mem_map.mp hmem
    exact ⟨p, hp, beq_iff_eq.mpr he⟩

/-- Claim C2: for a feature mapping of any size and a name not present in
it, the read-only (const) feature lookup returns exactly the mapping's
size, and the analyzer — hence the mapping and its size — is unchanged by
the call. -/
theorem readonly_feature_oov_sentinel (a : Analyzer) (name : String)
    (h : findFeature a.featureMap name = none) :
    (featureConstCall a name).1 = numFeatures a
      ∧ (featureConstCall a name).2 = a
      ∧ numFeatures (featureConstCall a name).2 = numFeatures a := by
  refine ⟨?_, rfl, rfl⟩
  simp [featureConstCall, featureConst, h, numFeatures]

/-- Witness for C2 at a mapping of size 2 and the unseen name "z". -/
theorem readonly_feature_oov_sentinel_witness :
    findFeature (Analyzer.mk [("x", 0), ("y", 1)] [] []).featureMap "z" = none
      ∧ ((featureConstCall (Analyzer.mk [("x", 0), ("y", 1)] [] []) "z").1
            = numFeatures (Analyzer.mk [("x", 0), ("y", 1)] [] [])
          ∧ (featureConstCall (Analyzer.mk [("x", 0), ("y", 1)] [] []) "z").2
            = Analyzer.mk [("x", 0), ("y", 1)] [] []
          ∧ numFeatures (featureConstCall (Analyzer.mk [("x", 0), ("y", 1)] [] []) "z").2
            = numFeatures (Analyzer.mk [("x", 0), ("y", 1)] [] [])) :=
  ⟨by decide, readonly_feature_oov_sentinel (Analyzer.mk [("x", 0), ("y", 1)] [] []) "z" (by decide)⟩

/-- Claim C8: an affix longer than the token falls back to the whole token,
and for the token "Run-23" (case-folded "run-23") the word features emitted
by the default pipeline include suffix_1 = "3", suffix_2 = "23",
prefix_1 = "r" and the has_digit and has_hyphen indicators, but not the
all_upper indicator. -/
theorem affix_feature_extraction :
    (∀ (s : String) (n : Nat), s.length < n → suffixStr s n = s ∧ prefixStr s n = s)
      ∧ "w[t]_suffix_1=3" ∈ (wordFeats "Run-23" 0).map Prod.fst
      ∧ "w[t]_suffix_2=23" ∈ (wordFeats "Run-23" 0).map Prod.fst
      ∧ "w[t]_prefix_1=r" ∈ (wordFeats "Run-23" 0).map Prod.fst
      ∧ "w[t]_has_digit=1" ∈ (wordFeats "Run-23" 0).map Prod.fst
      ∧ "w[t]_has_hyphen=1" ∈ (wordFeats "Run-23" 0).map Prod.fst
      ∧ "w[t]_all_upper=1" ∉ (wordFeats "Run-23" 0).map Prod.fst := by
  refine ⟨?_, by decide, by decide, by decide, by decide, by decide, by decide⟩
  intro s n h
  constructor
  · simp [suffixStr, h]
  · simp [prefixStr, h]

/-- Witness for C8 applying the affix-fallback part to "run-23" and length 7. -/
theorem affix_feature_extraction_witness :
    ("run-23" : String).length < 7
      ∧ suffixStr "run-23" 7 = "run-23"
      ∧ prefixStr "run-23" 7 = "run-23" :=
  ⟨by decide, (affix_feature_extraction.1 "run-23" 7 (by decide)).1,
    (affix_feature_extraction.1 "run-23" 7 (by decide)).2⟩

/-- Claim C9: on a 1-token sequence, position 0 receives from the
previous-word observation function exactly two features carrying the two
start-of-sequence markers, and from the next-word observation function
exactly two features carrying the two end-of-sequence markers; the t-1
marker differs from the t-2 marker and the t+1 marker differs from the t+2
marker.  Both functions are part of the default pipeline. -/
theorem boundary_marker_features (p : Position) :
    prevWordObs [p] 0 = [("w[t-1]=<s>", 1), ("w[t-2]=<s1>", 1)]
      ∧ nextWordObs [p] 0 = [("w[t+1]=</s>", 1), ("w[t+2]=</s1>", 1)]
      ∧ ("<s>" : String) ≠ "<s1>"
      ∧ ("</s>" : String) ≠ "</s1>"
      ∧ defaultPosAnalyzer.obsFns = [currentWordObs, prevWordObs, nextWordObs, biasObs] :=
  ⟨rfl, rfl, by decide, by decide, rfl⟩

/-- Claim C3: the mutating feature resolution returns the existing id of an
already-mapped name and leaves the mapping unchanged; an unmapped name is
stored under the current size, which is returned, growing the size by one;
a second call with the same name returns the same id and changes nothing;
and starting from an empty mapping, the k-th newly observed feature name
receives id k (0-indexed, first-seen order). -/
theorem mutating_feature_resolution (m : FeatureMap) (name : String) :
    (∀ v, findFeature m name = some v → featureMut m name = (v, m))
      ∧ (findFeature m name = none →
          (featureMut m name).1 = m.length
            ∧ findFeature (featureMut m name).2 name = some m.length
            ∧ (featureMut m name).2.length = m.length + 1)
      ∧ featureMut (featureMut m name).2 name = ((featureMut m name).1, (featureMut m name).2)
      ∧ (∀ names : List String, names.Nodup →
          ∀ k, ∀ hk : k < names.length,
            findFeature (processFeatures [] names) (names.get ⟨k, hk⟩) = some k) := by
  refine ⟨?_, ?_, ?_, ?_⟩
  · intro v h
    simp [featureMut, h]
  · intro h
    have hsnd : (featureMut m name).2 = m ++ [(name, m.length)] := by
      simp only [featureMut, h]
      exact fmStore_absent _ h
    refine ⟨by simp [featureMut, h], ?_, by rw [hsnd]; simp⟩
    rw [hsnd, findFeature_append_of_none _ h]
    simp [findFeature, List.find?]
  · cases hf : findFeature m name with
    | some v => simp [featureMut, hf]
    | none =>
      have hkey : findFeature (fmStore m name m.length) name = some m.length := by
        rw [fmStore_absent _ hf, findFeature_append_of_none _ hf]
        simp [findFeature, List.find?]
      simp [featureMut, hf, hkey]
  · intro names hnd k hk
    simpa using processFeatures_fresh names [] hnd (fun x _ => rfl) k hk

/-- Witness for C3: an existing name keeps its id, a fresh name gets the
size as id, and the second of two distinct names gets id 1. -/
theorem mutating_feature_resolution_witness :
    (findFeature [("x", 5)] "x" = some 5 ∧ featureMut [("x", 5)] "x" = (5, [("x", 5)]))
      ∧ (findFeature [("x", 5)] "y" = none
          ∧ ((featureMut [("x", 5)] "y").1 = 1
              ∧ findFeature (featureMut [("x", 5)] "y").2 "y" = some 1
              ∧ (featureMut [("x", 5)] "y").2.length = 2))
      ∧ ((["a", "b"] : List String).Nodup
          ∧ findFeature (processFeatures [] ["a", "b"]) "b" = some 1) :=
  ⟨⟨by decide, (mutating_feature_resolution [("x", 5)] "x").1 5 (by decide)⟩,
    ⟨by decide, (mutating_feature_resolution [("x", 5)] "y").2.1 (by decide)⟩,
    ⟨by decide, (mutating_feature_resolution [] "").2.2.2 ["a", "b"] (by decide) 1 (by decide)⟩⟩

/-- Claim C4: in inference (const) mode, a position that is untagged or
whose tag is not in the label mapping is labeled with the current
label-mapping size (a sentinel, not an error), and a position with a known
tag is labeled with that tag's existing label id; the const method cannot
grow the label mapping (the analyzer is no output of analyzeConstAt). -/
theorem inference_label_assignment (a : Analyzer) (seq : Sequence) (t : Nat)
    (h : t < seq.length) :
    ((analyzeConstAt a seq t).getD t default).label =
      (match (seq.getD t default).tag with
       | none => some a.labelMap.length
       | some tg =>
         if lmContainsKey a.labelMap tg then lmGetValue a.labelMap tg
         else some a.labelMap.length) := by
  unfold analyzeConstAt
  rw [getD_set_self _ _ _ h]
  cases htag : (seq.getD t default).tag with
  | none => simp [htag]
  | some tg =>
    cases hc : lmContainsKey a.labelMap tg <;> simp [htag, hc]

/-- Witness for C4 at a 1-position sequence whose position is untagged and
an analyzer with an empty label mapping: the label becomes the sentinel 0. -/
theorem inference_label_assignment_witness :
    (0 : Nat) < ([⟨"w", none, none, []⟩] : Sequence).length
      ∧ ((analyzeConstAt (Analyzer.mk [] [] []) [⟨"w", none, none, []⟩] 0).getD 0 default).label
          = some 0 :=
  ⟨by decide, inference_label_assignment (Analyzer.mk [] [] []) [⟨"w", none, none, []⟩] 0 (by decide)⟩

/-- Claim C6: on a well-formed label mapping (distinct tags, dense ids, as
the analyzer maintains it), every assigned tag satisfies
tag(label(t)) = t, every assigned id satisfies label(tag(i)) = i, and
the training-mode label-assignment step preserves well-formedness. -/
theorem label_mapping_bijectivity (m : LabelMap) (hw : WellFormed m) :
    (∀ t ∈ m.map Prod.fst, ∃ i, lmGetValue m t = some i ∧ lmGetKey m i = some t)
      ∧ (∀ i ∈ m.map Prod.snd, ∃ t, lmGetKey m i = some t ∧ lmGetValue m t = some i)
      ∧ (∀ tg, WellFormed (assignLabelTrain m tg).1) := by
  obtain ⟨hk, hv⟩ := hw
  have hvnd : (m.map Prod.snd).Nodup := by
    rw [hv]
    exact List.nodup_range _
  refine ⟨?_, ?_, ?_⟩
  · intro t ht
    obtain ⟨p, hp, hfst⟩ := List.mem_map.mp ht
    have hm : (t, p.2) ∈ m := by
      rw [← hfst]
      simpa using hp
    exact ⟨p.2, lmGetValue_of_mem hk hm, lmGetKey_of_mem hvnd hm⟩
  · intro i hi
    obtain ⟨p, hp, hsnd⟩ := List.mem_map.mp hi
    have hm : (p.1, i) ∈ m := by
      rw [← hsnd]
      simpa using hp
    exact ⟨p.1, lmGetKey_of_mem hvnd hm, lmGetValue_of_mem hk hm⟩
  · intro tg
    by_cases hc : lmContainsKey m tg = true
    · simpa [assignLabelTrain, hc] using And.intro hk hv
    · have hc2 : lmContainsKey m tg = false := by
        simpa using hc
      have htg : tg ∉ m.map Prod.fst := fun hmem => hc (lmContainsKey_eq_true_iff.mpr hmem)
      simp only [assignLabelTrain, hc2, Bool.false_eq_true, if_false, lmInsert]
      constructor
      · rw [List.map_append, List.nodup_append]
        refine ⟨hk, by simp, ?_⟩
        intro x hx
        simp only [List.map_cons, List.map_nil, List.mem_cons, List.not_mem_nil, or_false]
        intro he
        exact htg (he ▸ hx)
      · rw [List.map_append, hv, List.length_append]
        simp [List.range_succ]

/-- Witness for C6 at the well-formed mapping assigning "A" id 0 and "B"
id 1. -/
theorem label_mapping_bijectivity_witness :
    WellFormed [("A", 0), ("B", 1)]
      ∧ ((∀ t ∈ ([("A", 0), ("B", 1)] : LabelMap).map Prod.fst,
            ∃ i, lmGetValue [("A", 0), ("B", 1)] t = some i
              ∧ lmGetKey [("A", 0), ("B", 1)] i = some t)
          ∧ (∀ i ∈ ([("A", 0), ("B", 1)] : LabelMap).map Prod.snd,
              ∃ t, lmGetKey [("A", 0), ("B", 1)] i = some t
                ∧ lmGetValue [("A", 0), ("B", 1)] t = some i)
          ∧ (∀ tg, WellFormed (assignLabelTrain [("A", 0), ("B", 1)] tg).1)) :=
  ⟨⟨by decide, by decide⟩, label_mapping_bijectivity [("A", 0), ("B", 1)] ⟨by decide, by decide⟩⟩

/-- Claim C7: loading from a prefix where neither feature.mapping.gz nor
feature.mapping exists (and label.mapping is absent as well) fails with the
missing feature-mapping error — raised before the label mapping is even
checked — and leaves both mappings of the analyzer empty (they are cleared
at the start of load, and the failure happens before anything is stored). -/
theorem load_missing_mapping_error (a : Analyzer) (fs : FileSys) (pre : String) (junk : Nat)
    (h1 : fs (pre ++ "/feature.mapping.gz") = none)
    (h2 : fs (pre ++ "/feature.mapping") = none)
    (_h3 : fs (pre ++ "/label.mapping") = none) :
    loadAnalyzer a fs pre junk
      = ({ a with featureMap := [], labelMap := [] }, some "missing feature id mapping") := by
  simp [loadAnalyzer, loadFeatureFromDir, fileExists, openIfstream, h1, h2, loadFeatureStream]

/-- Witness for C7 on an empty filesystem. -/
theorem load_missing_mapping_error_witness :
    ((fun _ => none : FileSys) ("p" ++ "/feature.mapping.gz") = none)
      ∧ ((fun _ => none : FileSys) ("p" ++ "/feature.mapping") = none)
      ∧ ((fun _ => none : FileSys) ("p" ++ "/label.mapping") = none)
      ∧ loadAnalyzer (Analyzer.mk [("x", 0)] [("T", 0)] []) (fun _ => none) "p" 3
          = (Analyzer.mk [] [] [], some "missing feature id mapping") :=
  ⟨rfl, rfl, rfl,
    load_missing_mapping_error (Analyzer.mk [("x", 0)] [("T", 0)] []) (fun _ => none) "p" 3 rfl rfl rfl⟩

end MetaSeq
